import Mathlib

/-!
Verification development for the SceneFile versioning utility
(src/src/mayautils.py).  Python strings are modelled as List Char;
the host application (pymel) calls are modelled as explicit inputs:
the directory listing is a list of filenames, and the outcome of each
host save attempt is an explicit parameter.
-/

deriving instance DecidableEq for Except

namespace SceneFile

/-- One piece-accumulation step used by the split functions: prepend a
character to the first piece of a piece list. -/
def consHead (c : Char) : List (List Char) → List (List Char)
  | [] => [[c]]
  | p :: ps => (c :: p) :: ps

/-- Python str.split on the two-character separator made of an underscore
followed by the letter v, as used by fullname.split in the source. -/
def splitV : List Char → List (List Char)
  | [] => [[]]
  | [c] => [[c]]
  | c :: d :: rest =>
      if c = '_' ∧ d = 'v' then [] :: splitV rest
      else consHead c (splitV (d :: rest))

/-- Python str.split on the one-character separator of a dot, as used by
nameandversion[1].split in the source. -/
def splitDot : List Char → List (List Char)
  | [] => [[]]
  | c :: rest => if c = '.' then [] :: splitDot rest else consHead c (splitDot rest)

/-- Decimal digit test on a character, by code point (48 to 57). -/
def isDigitCh (c : Char) : Bool :=
  decide (48 ≤ c.toNat) && decide (c.toNat ≤ 57)

/-- Value of a digit string read left to right. -/
def digitsToNat (s : List Char) : Nat :=
  s.foldl (fun a c => 10 * a + (c.toNat - 48)) 0

/-- Python int() as it is exercised by this naming convention: a nonempty
all-digit string parses to its value, anything else raises ValueError
(modelled as none).  Signed, spaced or underscored integer literals never
arise from the filenames this model handles and are out of scope. -/
def pyInt (s : List Char) : Option Nat :=
  if s ≠ [] ∧ s.all isDigitCh then some (digitsToNat s) else none

/-- Decimal digits of a natural number, most significant first, with an
explicit recursion bound so the definition evaluates by reduction; any
bound above the number itself is enough. -/
def natDigitsAux : Nat → Nat → List Char
  | 0, _ => []
  | fuel + 1, n =>
      if n < 10 then [Nat.digitChar n]
      else natDigitsAux fuel (n / 10) ++ [Nat.digitChar (n % 10)]

/-- Decimal digits of a natural number, most significant first. -/
def natDigits (n : Nat) : List Char := natDigitsAux (n + 1) n

/-- Python format with the 03d conversion: decimal digits left-padded
with zeros to width three. -/
def pad3 (n : Nat) : List Char :=
  List.replicate (3 - (natDigits n).length) '0' ++ natDigits n

/-- SceneFile.basename: descriptor, the separator, the zero-padded
version, a dot, the extension. -/
def basename (descriptor : List Char) (version : Nat) (ext : List Char) : List Char :=
  descriptor ++ '_' :: 'v' :: (pad3 version ++ '.' :: ext)

/-- SceneFile.path: the directory joined with the basename. -/
def path (dir descriptor : List Char) (version : Nat) (ext : List Char) : List Char :=
  dir ++ '/' :: basename descriptor version ext

/-- Outcome of running the constructor's parsing branch (the scene is
already saved).  The source raises a RuntimeError with the naming-scheme
message when the separator split does not give two parts (namingError
here), a ValueError from int() on non-numeric version text, and an
IndexError when the split on the dot has no second element. -/
inductive ParseResult where
  | ok (descriptor : List Char) (version : Nat) (ext : List Char)
  | namingError
  | valueError
  | indexError
deriving DecidableEq

/-- The else branch of SceneFile.__init__: split the open file's name on
the separator; demand exactly two parts; the first part is the
descriptor, the second is split on the dot, its first piece parsed by
int() as the version and its second piece taken as the extension. -/
def parseSceneName (fullname : List Char) : ParseResult :=
  let parts := splitV fullname
  if parts.length ≠ 2 then .namingError
  else
    let d := parts.headD []
    let second := (parts[1]?).getD []
    match pyInt ((splitDot second).headD []) with
    | none => .valueError
    | some v =>
        match (splitDot second)[1]? with
        | none => .indexError
        | some e => .ok d v e

/-- The mutable state of the increment_and_save scan: self.version and
the local variable largest_number. -/
structure ScanState where
  version : Nat
  largest : Nat
deriving DecidableEq

/-- Failures the scan loop body can raise: IndexError from
scene.split of the separator when there is no second part, ValueError
from int() on non-numeric version text. -/
inductive ScanErr where
  | indexErr
  | valueErr
deriving DecidableEq

/-- One iteration of the for loop of increment_and_save: take the part
before the separator as the descriptor; when it equals self.descriptor,
parse the version number, raise largest_number to it when it exceeds the
current self.version, and bump self.version to largest_number plus one
when it equals the current self.version. -/
def scanStep (descr : List Char) (st : ScanState) (scene : List Char) :
    Except ScanErr ScanState :=
  let parts := splitV scene
  if (parts.headD []) = descr then
    match parts[1]? with
    | none => .error .indexErr
    | some second =>
        match pyInt ((splitDot second).headD []) with
        | none => .error .valueErr
        | some value =>
            let largest1 := if st.version < value then value else st.largest
            let version1 := if value = st.version then largest1 + 1 else st.version
            .ok ⟨version1, largest1⟩
  else .ok st

/-- The whole for loop of increment_and_save, filename by filename. -/
def scanFold (descr : List Char) (st : ScanState) :
    List (List Char) → Except ScanErr ScanState
  | [] => .ok st
  | f :: fs =>
      match scanStep descr st f with
      | .error e => .error e
      | .ok st' => scanFold descr st' fs

/-- The scan phase of increment_and_save: largest_number starts at
self.version, then the loop runs over the host's directory listing
(already reduced to bare filenames, as Path(file).name does). -/
def increment_scan (descr : List Char) (version : Nat)
    (files : List (List Char)) : Except ScanErr ScanState :=
  scanFold descr ⟨version, version⟩ files

/-- A same-descriptor test as the loop performs it: the part of the
filename before the separator equals self.descriptor. -/
def sameDescr (descr scene : List Char) : Bool :=
  ((splitV scene).headD []) == descr

/-- Outcome the host reports for one saveAs attempt.  In the source all
failures surface as RuntimeError; the model still distinguishes the
missing-directory condition from any other failure so that the recovery
policy can be stated. -/
inductive SaveOutcome where
  | success
  | missingDir
  | otherFail
deriving DecidableEq

/-- The host as SceneFile.save observes it: the outcome of the first
saveAs attempt and the outcome of the retry performed after the
directories have been created. -/
structure SaveHost where
  attempt1 : SaveOutcome
  attempt2 : SaveOutcome
deriving DecidableEq

/-- What the save call returns to its caller.  The source's save has no
return statement, so a successful run returns Python's None; an
uncaught exception from the retry propagates. -/
inductive SaveResult where
  | returnedNone
  | returnedPath (p : List Char)
  | raisedSaveFailed
deriving DecidableEq

/-- Observable behaviour of one SceneFile.save call: how many saveAs
attempts were made, whether makedirs_p ran, and what came back. -/
structure SaveTrace where
  attempts : Nat
  madeDirs : Bool
  result : SaveResult
deriving DecidableEq

/-- SceneFile.save: try saveAs once; on any RuntimeError (the except
clause does not inspect the failure) create the directory tree with
makedirs_p and retry exactly once; a failure of the retry propagates.
No return statement exists, so success yields None. -/
def save (h : SaveHost) : SaveTrace :=
  match h.attempt1 with
  | .success => ⟨1, false, .returnedNone⟩
  | _ =>
      match h.attempt2 with
      | .success => ⟨2, true, .returnedNone⟩
      | _ => ⟨2, true, .raisedSaveFailed⟩

/-- Modelled from the spec's words for the scan of incrementAndSave, as
the claim describes it: the update of largest_number fires only when a
sibling version strictly exceeds the original, pre-call self.version
(the parameter v0), while the equality test still reads the current
self.version.  Kept separate from scanStep, which is translated from
the source, so the two can be compared. -/
def claimStepOriginal (descr : List Char) (v0 : Nat) (st : ScanState)
    (scene : List Char) : Except ScanErr ScanState :=
  let parts := splitV scene
  if (parts.headD []) = descr then
    match parts[1]? with
    | none => .error .indexErr
    | some second =>
        match pyInt ((splitDot second).headD []) with
        | none => .error .valueErr
        | some value =>
            let raised := if v0 < value then value else st.largest
            .ok ⟨if value = st.version then raised + 1 else st.version, raised⟩
  else .ok st

/-- The scan loop under the claim's original-version reading. -/
def claimFoldOriginal (descr : List Char) (v0 : Nat) (st : ScanState) :
    List (List Char) → Except ScanErr ScanState
  | [] => .ok st
  | f :: fs =>
      match claimStepOriginal descr v0 st f with
      | .error e => .error e
      | .ok st' => claimFoldOriginal descr v0 st' fs

/-- The whole scan under the claim's original-version reading, seeded
like the source seeds it. -/
def claimScanOriginal (descr : List Char) (v0 : Nat)
    (files : List (List Char)) : Except ScanErr ScanState :=
  claimFoldOriginal descr v0 ⟨v0, v0⟩ files

/-- The amended description of one scan iteration: largest_number is
raised to the sibling version exactly when that version strictly
exceeds the current self.version at the time the sibling is processed,
and when the sibling version equals the current self.version, the
version becomes the (possibly just raised) largest_number plus one. -/
def claimStepCurrent (descr : List Char) (st : ScanState)
    (scene : List Char) : Except ScanErr ScanState :=
  let parts := splitV scene
  if (parts.headD []) = descr then
    match parts[1]? with
    | none => .error .indexErr
    | some second =>
        match pyInt ((splitDot second).headD []) with
        | none => .error .valueErr
        | some value =>
            let raised := if value > st.version then value else st.largest
            .ok ⟨if value = st.version then raised + 1 else st.version, raised⟩
  else .ok st

/-- The scan loop under the amended, current-version reading. -/
def claimFoldCurrent (descr : List Char) (st : ScanState) :
    List (List Char) → Except ScanErr ScanState
  | [] => .ok st
  | f :: fs =>
      match claimStepCurrent descr st f with
      | .error e => .error e
      | .ok st' => claimFoldCurrent descr st' fs

/-- The whole scan under the amended, current-version reading. -/
def claimScanCurrent (descr : List Char) (v0 : Nat)
    (files : List (List Char)) : Except ScanErr ScanState :=
  claimFoldCurrent descr ⟨v0, v0⟩ files

/-- Modelled from the spec's words for save's recovery policy: only a
first attempt failing with the missing-directory condition is recovered
by creating the directory tree and retrying once; any other first
failure propagates at once, with no directory creation and no retry. -/
def claimSave (h : SaveHost) : SaveTrace :=
  match h.attempt1 with
  | .success => ⟨1, false, .returnedNone⟩
  | .missingDir =>
      match h.attempt2 with
      | .success => ⟨2, true, .returnedNone⟩
      | _ => ⟨2, true, .raisedSaveFailed⟩
  | .otherFail => ⟨1, false, .raisedSaveFailed⟩

/-- The string has no occurrence of the separator: no underscore
immediately followed by the letter v. -/
def noV : List Char → Bool
  | [] => true
  | [_] => true
  | c :: d :: rest => !(c == '_' && d == 'v') && noV (d :: rest)

/-- The string contains no dot. -/
def noDot (s : List Char) : Bool :=
  s.all (fun c => !(c == '.'))

/-- The part of a string before its first dot. -/
def beforeFirstDot (s : List Char) : List Char :=
  s.takeWhile (fun c => !(c == '.'))

/-- The part of a string after its first dot. -/
def afterFirstDot (s : List Char) : List Char :=
  (s.dropWhile (fun c => !(c == '.'))).tail

theorem consHead_ne_nil (c : Char) (L : List (List Char)) : consHead c L ≠ [] := by
  cases L <;> simp [consHead]

theorem noV_cons_of (c : Char) (l : List Char) (hc : (c == '_') = false)
    (hl : noV l = true) : noV (c :: l) = true := by
  cases l with
  | nil => rfl
  | cons d t => simp [noV, hc] at hl ⊢; exact hl

theorem noV_tail (c : Char) (l : List Char) (h : noV (c :: l) = true) :
    noV l = true := by
  cases l with
  | nil => rfl
  | cons d t => simp [noV] at h ⊢; exact h.2

theorem noV_append (xs ys : List Char) (hx : ∀ c ∈ xs, (c == '_') = false)
    (hy : noV ys = true) : noV (xs ++ ys) = true := by
  induction xs with
  | nil => simpa using hy
  | cons c xs' ih =>
      have h1 : (c == '_') = false := hx c (by simp)
      have h2 : ∀ c ∈ xs', (c == '_') = false := fun d hd => hx d (by simp [hd])
      simpa using noV_cons_of c (xs' ++ ys) h1 (ih h2)

theorem splitV_sep (b : List Char) :
    ∀ a : List Char, noV a = true → splitV (a ++ '_' :: 'v' :: b) = a :: splitV b := by
  intro a
  induction a with
  | nil => intro _; simp [splitV]
  | cons c a' ih =>
      intro ha
      cases a' with
      | nil =>
          have hne : ¬(c = '_' ∧ '_' = 'v') := by simp
          simp [splitV, hne, consHead]
      | cons d a'' =>
          have ha' : (!(c == '_' && d == 'v') && noV (d :: a'')) = true := ha
          rw [Bool.and_eq_true] at ha'
          have h1 : ¬(c = '_' ∧ d = 'v') := by
            rcases ha' with ⟨hp, -⟩
            simp only [Bool.not_eq_true', Bool.and_eq_false_iff, beq_eq_false_iff_ne] at hp
            rcases hp with h | h
            · exact fun hcd => h hcd.1
            · exact fun hcd => h hcd.2
          have h2 : noV (d :: a'') = true := ha'.2
          have step : splitV ((c :: d :: a'') ++ '_' :: 'v' :: b)
              = consHead c (splitV ((d :: a'') ++ '_' :: 'v' :: b)) := by
            simp [splitV, h1]
          rw [step, ih h2]
          simp [consHead]

theorem splitV_noV : ∀ a : List Char, noV a = true → splitV a = [a] := by
  intro a
  induction a with
  | nil => intro _; rfl
  | cons c a' ih =>
      intro ha
      cases a' with
      | nil => rfl
      | cons d a'' =>
          have ha' : (!(c == '_' && d == 'v') && noV (d :: a'')) = true := ha
          rw [Bool.and_eq_true] at ha'
          have h1 : ¬(c = '_' ∧ d = 'v') := by
            rcases ha' with ⟨hp, -⟩
            simp only [Bool.not_eq_true', Bool.and_eq_false_iff, beq_eq_false_iff_ne] at hp
            rcases hp with h | h
            · exact fun hcd => h hcd.1
            · exact fun hcd => h hcd.2
          rw [show splitV (c :: d :: a'') = consHead c (splitV (d :: a'')) by
            simp [splitV, h1]]
          rw [ih ha'.2]
          rfl

theorem splitDot_ne_nil (s : List Char) : splitDot s ≠ [] := by
  cases s with
  | nil => simp [splitDot]
  | cons c t =>
      by_cases h : c = '.'
      · simp [splitDot, h]
      · simp only [splitDot, if_neg h]
        exact consHead_ne_nil _ _

theorem splitDot_sep (b : List Char) :
    ∀ a : List Char, noDot a = true → splitDot (a ++ '.' :: b) = a :: splitDot b := by
  intro a
  induction a with
  | nil => intro _; simp [splitDot]
  | cons c a' ih =>
      intro ha
      simp only [noDot, List.all_cons, Bool.and_eq_true] at ha
      have hc : ¬ c = '.' := by
        have := ha.1
        simpa [beq_eq_false_iff_ne] using this
      have ha' : noDot a' = true := by
        simp [noDot]; intro x hx
        have := ha.2
        rw [List.all_eq_true] at this
        simpa [beq_eq_false_iff_ne] using this x hx
      simp only [List.cons_append, splitDot, if_neg hc, List.append_eq]
      rw [ih ha']
      rfl

theorem splitDot_noDot : ∀ a : List Char, noDot a = true → splitDot a = [a] := by
  intro a
  induction a with
  | nil => intro _; rfl
  | cons c a' ih =>
      intro ha
      simp only [noDot, List.all_cons, Bool.and_eq_true] at ha
      have hc : ¬ c = '.' := by
        have := ha.1
        simpa [beq_eq_false_iff_ne] using this
      have ha' : noDot a' = true := by
        simpa [noDot] using ha.2
      simp only [splitDot, if_neg hc]
      rw [ih ha']
      rfl

theorem splitDot_headD (s : List Char) :
    (splitDot s).headD [] = beforeFirstDot s := by
  induction s with
  | nil => rfl
  | cons c t ih =>
      by_cases h : c = '.'
      · simp [splitDot, h, beforeFirstDot, List.takeWhile]
      · have hb : (c == '.') = false := by simp [h]
        simp only [splitDot, if_neg h, beforeFirstDot, List.takeWhile_cons, hb]
        cases hsd : splitDot t with
        | nil => exact absurd hsd (splitDot_ne_nil t)
        | cons p ps =>
            have hp : p = beforeFirstDot t := by
              rw [hsd] at ih
              simpa using ih
            simp only [consHead, List.headD_cons, Bool.not_false, if_true]
            rw [hp]
            rfl

theorem digitChar_toNat (r : Nat) (h : r < 10) : (Nat.digitChar r).toNat = 48 + r := by
  interval_cases r <;> decide

theorem digitChar_digit (r : Nat) (h : r < 10) : isDigitCh (Nat.digitChar r) = true := by
  interval_cases r <;> decide

theorem isDigitCh_beq_underscore (c : Char) (h : isDigitCh c = true) :
    (c == '_') = false := by
  rw [beq_eq_false_iff_ne]
  intro he
  subst he
  exact absurd h (by decide)

theorem isDigitCh_beq_dot (c : Char) (h : isDigitCh c = true) :
    (c == '.') = false := by
  rw [beq_eq_false_iff_ne]
  intro he
  subst he
  exact absurd h (by decide)

theorem natDigitsAux_ne_nil (fuel n : Nat) : natDigitsAux (fuel + 1) n ≠ [] := by
  rw [natDigitsAux]
  by_cases h : n < 10
  · simp [h]
  · simp [h]

theorem natDigits_ne_nil (n : Nat) : natDigits n ≠ [] :=
  natDigitsAux_ne_nil n n

theorem natDigitsAux_isDigit (fuel : Nat) :
    ∀ (n : Nat), ∀ c ∈ natDigitsAux fuel n, isDigitCh c = true := by
  induction fuel with
  | zero => intro n c hc; exact absurd hc (by simp [natDigitsAux])
  | succ fuel ih =>
      intro n c hc
      rw [natDigitsAux] at hc
      by_cases h : n < 10
      · rw [if_pos h] at hc
        simp only [List.mem_singleton] at hc
        subst hc
        exact digitChar_digit n h
      · rw [if_neg h] at hc
        simp only [List.mem_append, List.mem_singleton] at hc
        rcases hc with hc | hc
        · exact ih (n / 10) c hc
        · subst hc
          exact digitChar_digit (n % 10) (Nat.mod_lt _ (by omega))

theorem natDigits_isDigit (n : Nat) : ∀ c ∈ natDigits n, isDigitCh c = true :=
  natDigitsAux_isDigit (n + 1) n

theorem digitsToNat_append_one (xs : List Char) (c : Char) :
    digitsToNat (xs ++ [c]) = 10 * digitsToNat xs + (c.toNat - 48) := by
  simp [digitsToNat, List.foldl_append]

theorem digitsToNat_natDigitsAux (fuel : Nat) :
    ∀ n : Nat, n < fuel → digitsToNat (natDigitsAux fuel n) = n := by
  induction fuel with
  | zero => intro n hn; omega
  | succ fuel ih =>
      intro n hn
      rw [natDigitsAux]
      by_cases h : n < 10
      · rw [if_pos h]
        have ht := digitChar_toNat n h
        simp only [digitsToNat, List.foldl_cons, List.foldl_nil]
        omega
      · rw [if_neg h, digitsToNat_append_one]
        have hdiv : n / 10 < fuel := by
          have hlt : n / 10 < n := Nat.div_lt_self (by omega) (by omega)
          omega
        rw [ih (n / 10) hdiv]
        rw [digitChar_toNat (n % 10) (Nat.mod_lt _ (by omega))]
        omega

theorem digitsToNat_natDigits (n : Nat) : digitsToNat (natDigits n) = n :=
  digitsToNat_natDigitsAux (n + 1) n (by omega)

theorem foldl_zeros (k : Nat) (s : List Char) :
    List.foldl (fun a c => 10 * a + (c.toNat - 48)) 0 (List.replicate k '0' ++ s)
      = List.foldl (fun a c => 10 * a + (c.toNat - 48)) 0 s := by
  induction k with
  | zero => rfl
  | succ k ih =>
      rw [List.replicate_succ, List.cons_append, List.foldl_cons]
      have h0 : ('0').toNat = 48 := rfl
      simpa [h0] using ih

theorem pad3_isDigit (n : Nat) : ∀ c ∈ pad3 n, isDigitCh c = true := by
  intro c hc
  simp only [pad3, List.mem_append, List.mem_replicate] at hc
  rcases hc with hc | hc
  · rw [hc.2]
    decide
  · exact natDigits_isDigit n c hc

theorem pad3_ne_nil (n : Nat) : pad3 n ≠ [] := by
  simp only [pad3, ne_eq, List.append_eq_nil]
  intro hc
  exact natDigits_ne_nil n hc.2

theorem pyInt_pad3 (n : Nat) : pyInt (pad3 n) = some n := by
  have hall : (pad3 n).all isDigitCh = true := by
    rw [List.all_eq_true]
    exact pad3_isDigit n
  rw [pyInt, if_pos ⟨pad3_ne_nil n, hall⟩]
  rw [pad3]
  show some (List.foldl (fun a c => 10 * a + (c.toNat - 48)) 0
    (List.replicate (3 - (natDigits n).length) '0' ++ natDigits n)) = some n
  rw [foldl_zeros]
  exact congrArg some (digitsToNat_natDigits n)

theorem splitDot_get1 (s : List Char) :
    (splitDot s)[1]? = if s.any (fun c => c == '.') then
      some (beforeFirstDot (afterFirstDot s)) else none := by
  induction s with
  | nil => rfl
  | cons c t ih =>
      by_cases h : c = '.'
      · have hb : (c == '.') = true := by simp [h]
        simp only [splitDot, if_pos h, List.any_cons, hb, Bool.true_or, if_pos]
        rw [List.getElem?_cons_succ]
        cases hsd : splitDot t with
        | nil => exact absurd hsd (splitDot_ne_nil t)
        | cons p ps =>
            have hh : (splitDot t).headD [] = p := by rw [hsd]; rfl
            have : p = beforeFirstDot t := by rw [← hh, splitDot_headD]
            simp only [List.getElem?_cons_zero, this]
            have haft : afterFirstDot (c :: t) = t := by
              simp [afterFirstDot, List.dropWhile_cons, hb]
            rw [haft]
      · have hb : (c == '.') = false := by simp [h]
        simp only [splitDot, if_neg h, List.any_cons, hb, Bool.false_or]
        cases hsd : splitDot t with
        | nil => exact absurd hsd (splitDot_ne_nil t)
        | cons p ps =>
            have h2 : (consHead c (p :: ps))[1]? = (p :: ps)[1]? := rfl
            rw [h2, ← hsd, ih]
            have haft : afterFirstDot (c :: t) = afterFirstDot t := by
              simp [afterFirstDot, List.dropWhile_cons, hb]
            rw [haft]

theorem scanFold_cons (descr f : List Char) (fs : List (List Char)) (st : ScanState) :
    scanFold descr st (f :: fs)
      = match scanStep descr st f with
        | .error e => .error e
        | .ok st' => scanFold descr st' fs := rfl

theorem scanStep_skip (descr scene : List Char) (st : ScanState)
    (h : ((splitV scene).headD []) ≠ descr) : scanStep descr st scene = .ok st := by
  rw [scanStep]
  exact if_neg h

theorem scanStep_other_descr (descr scene : List Char) (st : ScanState)
    (h : sameDescr descr scene = false) : scanStep descr st scene = .ok st := by
  apply scanStep_skip
  simpa [sameDescr] using h

theorem scanFold_filter (descr : List Char) :
    ∀ (l : List (List Char)) (st : ScanState),
      scanFold descr st l = scanFold descr st (l.filter (sameDescr descr)) := by
  intro l
  induction l with
  | nil => intro st; rfl
  | cons f fs ih =>
      intro st
      by_cases h : sameDescr descr f = true
      · rw [List.filter_cons_of_pos h, scanFold_cons, scanFold_cons]
        cases hstep : scanStep descr st f with
        | error e => rfl
        | ok st' => exact ih st'
      · have hf : sameDescr descr f = false := by
          cases hb : sameDescr descr f
          · rfl
          · exact absurd hb h
        rw [List.filter_cons_of_neg (by simp [hf]), scanFold_cons,
          scanStep_other_descr descr f st hf]
        exact ih st

theorem scanStep_bounds (descr scene : List Char) (v0 : Nat) (st st' : ScanState)
    (h : scanStep descr st scene = .ok st') (h1 : v0 ≤ st.version)
    (h2 : v0 ≤ st.largest) : v0 ≤ st'.version ∧ v0 ≤ st'.largest := by
  rw [scanStep] at h
  by_cases hd : ((splitV scene).headD []) = descr
  · rw [if_pos hd] at h
    cases hsecond : (splitV scene)[1]? with
    | none => rw [hsecond] at h; exact absurd h (by simp)
    | some second =>
        rw [hsecond] at h
        dsimp only at h
        cases hval : pyInt ((splitDot second).headD []) with
        | none => rw [hval] at h; exact absurd h (by simp)
        | some value =>
            rw [hval] at h
            simp only [Except.ok.injEq] at h
            subst h
            by_cases hgt : st.version < value <;>
              by_cases heq : value = st.version <;>
                simp [hgt, heq] <;> omega
  · rw [if_neg hd] at h
    simp only [Except.ok.injEq] at h
    subst h
    exact ⟨h1, h2⟩

theorem scanFold_bounds (descr : List Char) (v0 : Nat) :
    ∀ (l : List (List Char)) (st st' : ScanState),
      v0 ≤ st.version → v0 ≤ st.largest → scanFold descr st l = .ok st' →
      v0 ≤ st'.version ∧ v0 ≤ st'.largest := by
  intro l
  induction l with
  | nil =>
      intro st st' h1 h2 h
      have hst : st = st' := by simpa [scanFold] using h
      subst hst
      exact ⟨h1, h2⟩
  | cons f fs ih =>
      intro st st' h1 h2 h
      rw [scanFold_cons] at h
      cases hstep : scanStep descr st f with
      | error e => rw [hstep] at h; exact absurd h (by simp)
      | ok stm =>
          rw [hstep] at h
          have hb := scanStep_bounds descr f v0 st stm hstep h1 h2
          exact ih stm st' hb.1 hb.2 h

/-- C1: with descriptor ship, version 1, and a directory listing holding
exactly ship_v001.ma and ship_v002.ma, the claim says every listing
order saves version 3.  The code disagrees: in the order with
ship_v001.ma first the scan ends at version 2 (largest_number is still 1
when the second equality hit bumps the version), while the reversed
order ends at version 3.  This also contradicts the function's own
docstring, which promises incrementing from the largest number available
in the folder. -/
theorem C1_increment_scan_order_dependent :
    increment_scan (("ship").toList) 1
        [("ship_v001.ma").toList, ("ship_v002.ma").toList] = .ok ⟨2, 1⟩ ∧
    increment_scan (("ship").toList) 1
        [("ship_v002.ma").toList, ("ship_v001.ma").toList] = .ok ⟨3, 2⟩ := by
  exact ⟨by decide, by decide⟩

/-- C2 counterexample: on the listing ship_v001.ma then ship_v002.ma with
descriptor ship and version 1, the scan modelled from the claim's words
(largest_number raised when the sibling exceeds the original, pre-call
version) ends at version 3 with largest_number 2, but the code's scan
ends at version 2 with largest_number 1. -/
theorem C2_counterexample :
    claimScanOriginal (("ship").toList) 1
        [("ship_v001.ma").toList, ("ship_v002.ma").toList] = .ok ⟨3, 2⟩ ∧
    increment_scan (("ship").toList) 1
        [("ship_v001.ma").toList, ("ship_v002.ma").toList] = .ok ⟨2, 1⟩ ∧
    (Except.ok (⟨3, 2⟩ : ScanState) : Except ScanErr ScanState) ≠ .ok ⟨2, 1⟩ := by
  exact ⟨by decide, by decide, by decide⟩

/-- C2 (amended): largest_number is seeded at self.version and is raised
to a same-descriptor sibling version exactly when that version strictly
exceeds the current self.version at the time the sibling is processed
(so with several exceeding siblings the final largest_number is the
last-seen such value, not necessarily the maximum), and whenever a
sibling version equals the current self.version, self.version becomes
largest_number plus one.  The code's scan coincides with that
description on every input. -/
theorem C2_amended_scan_follows_current_version (descr : List Char) (v0 : Nat)
    (files : List (List Char)) :
    increment_scan descr v0 files = claimScanCurrent descr v0 files := by
  suffices h : ∀ (l : List (List Char)) (st : ScanState),
      scanFold descr st l = claimFoldCurrent descr st l from h files ⟨v0, v0⟩
  intro l
  induction l with
  | nil => intro st; rfl
  | cons f fs ih =>
      intro st
      have hstep : scanStep descr st f = claimStepCurrent descr st f := rfl
      rw [scanFold_cons, hstep]
      show (match claimStepCurrent descr st f with
        | .error e => .error e
        | .ok st' => scanFold descr st' fs) = claimFoldCurrent descr st (f :: fs)
      rw [show claimFoldCurrent descr st (f :: fs)
          = match claimStepCurrent descr st f with
            | .error e => .error e
            | .ok st' => claimFoldCurrent descr st' fs from rfl]
      cases claimStepCurrent descr st f with
      | error e => rfl
      | ok st' => exact ih st'

/-- C3 counterexample: descriptor a, version 1 and the dot-free
extension b_vc satisfy every hypothesis of the claim, yet the formatted
name a_v001.b_vc splits on the separator into three parts, so parsing
raises the naming error instead of recovering the triple. -/
theorem C3_counterexample :
    noV (("a").toList) = true ∧ noDot (("b_vc").toList) = true ∧
    (1 : Nat) ≤ 1 ∧ (1 : Nat) ≤ 999 ∧
    parseSceneName (basename (("a").toList) 1 (("b_vc").toList)) = .namingError ∧
    ParseResult.namingError ≠ .ok (("a").toList) 1 (("b_vc").toList) := by
  exact ⟨by decide, by decide, by decide, by decide, by decide, by decide⟩

/-- C3 (amended): for every descriptor without the separator substring,
every version from 1 to 999, and every extension containing neither a
dot nor the separator substring, parsing the formatted basename recovers
exactly the original descriptor, version and extension. -/
theorem C3_amended_roundtrip (d e : List Char) (n : Nat) (hd : noV d = true)
    (h1 : 1 ≤ n) (h2 : n ≤ 999) (he : noDot e = true) (hev : noV e = true) :
    parseSceneName (basename d n e) = .ok d n e := by
  have hx : ∀ c ∈ pad3 n ++ ['.'], (c == '_') = false := by
    intro c hc
    rcases List.mem_append.mp hc with hc | hc
    · exact isDigitCh_beq_underscore c (pad3_isDigit n c hc)
    · rw [List.mem_singleton] at hc
      subst hc
      decide
  have hnv : noV (pad3 n ++ '.' :: e) = true := by
    have h := noV_append (pad3 n ++ ['.']) e hx hev
    simpa [List.append_assoc] using h
  have hsplit : splitV (basename d n e) = [d, pad3 n ++ '.' :: e] := by
    rw [basename, splitV_sep _ d hd, splitV_noV _ hnv]
  have hnd : noDot (pad3 n) = true := by
    rw [noDot, List.all_eq_true]
    intro c hc
    simpa using isDigitCh_beq_dot c (pad3_isDigit n c hc)
  have hdot : splitDot (pad3 n ++ '.' :: e) = [pad3 n, e] := by
    rw [splitDot_sep _ _ hnd, splitDot_noDot _ he]
  simp only [parseSceneName, hsplit]
  simp [hdot, pyInt_pad3 n]

/-- C3 witness: the theorem applied to descriptor ship, version 12 and
extension ma. -/
theorem C3_witness :
    parseSceneName (basename (("ship").toList) 12 (("ma").toList))
      = .ok (("ship").toList) 12 (("ma").toList) :=
  C3_amended_roundtrip (("ship").toList) (("ma").toList) 12 (by decide)
    (by decide) (by decide) (by decide) (by decide)

/-- C6: constructing from an open, unmodified scene raises the naming
error exactly when splitting the filename on the separator does not
give two parts; in particular the separator-free name scene.ma fails
that way. -/
theorem C6_naming_error_iff :
    (∀ f : List Char, parseSceneName f = .namingError ↔ (splitV f).length ≠ 2) ∧
    parseSceneName (("scene.ma").toList) = .namingError := by
  constructor
  · intro f
    constructor
    · intro h
      by_contra hlen
      simp only [parseSceneName] at h
      rw [if_neg (show ¬ (splitV f).length ≠ 2 from by simp [hlen])] at h
      split at h
      · exact ParseResult.noConfusion h
      · split at h
        · exact ParseResult.noConfusion h
        · exact ParseResult.noConfusion h
    · intro hlen
      simp only [parseSceneName]
      rw [if_pos hlen]
  · decide

/-- C6 witness: a filename whose separator split has three parts is
rejected with the naming error. -/
theorem C6_witness :
    parseSceneName (("a_vb_vc.ma").toList) = .namingError :=
  (C6_naming_error_iff.1 (("a_vb_vc.ma").toList)).2 (by decide)

/-- C7 counterexample: the open filename ship_v001.tar.gz splits into
ship and 001.tar.gz.  The claim reads the version from the portion
before the last dot, 001.tar, which is not numeric, so it predicts a
NamingConventionError; the code instead splits on the first dot,
parses 001 successfully and takes tar, not gz, as the extension. -/
theorem C7_counterexample :
    splitV (("ship_v001.tar.gz").toList)
      = [("ship").toList, ("001.tar.gz").toList] ∧
    pyInt (("001.tar").toList) = none ∧
    parseSceneName (("ship_v001.tar.gz").toList)
      = .ok (("ship").toList) 1 (("tar").toList) ∧
    ("tar").toList ≠ ("gz").toList := by
  exact ⟨by decide, by decide, by decide, by decide⟩

/-- C7 (amended): when the filename splits on the separator into exactly
two parts, the second part is split on dots: the portion before the
first dot is parsed as the integer version, failing with ValueError (a
kind distinct from NamingConventionError) when it is not numeric; when
it is numeric, the portion between the first and the second dot becomes
the extension, and a second part with no dot at all raises IndexError. -/
theorem C7_amended_first_dot (f d rest : List Char)
    (h : splitV f = [d, rest]) :
    (pyInt (beforeFirstDot rest) = none → parseSceneName f = .valueError) ∧
    (∀ n, pyInt (beforeFirstDot rest) = some n →
      parseSceneName f = if rest.any (fun c => c == '.')
        then .ok d n (beforeFirstDot (afterFirstDot rest))
        else .indexError) ∧
    ParseResult.valueError ≠ .namingError := by
  have hun : parseSceneName f
      = match pyInt (beforeFirstDot rest) with
        | none => .valueError
        | some v =>
            match (splitDot rest)[1]? with
            | none => .indexError
            | some e => .ok d v e := by
    simp only [parseSceneName, h]
    rw [splitDot_headD]
    rfl
  refine ⟨?_, ?_, by decide⟩
  · intro hnone
    rw [hun, hnone]
  · intro n hsome
    rw [hun, hsome]
    dsimp only
    rw [splitDot_get1]
    by_cases hany : rest.any (fun c => c == '.') = true
    · rw [if_pos hany, if_pos hany]
    · have hf : rest.any (fun c => c == '.') = false := by
        cases hb : rest.any (fun c => c == '.')
        · rfl
        · exact absurd hb hany
      rw [if_neg (by simp [hf]), if_neg (by simp [hf])]

/-- C7 witness: the open filename ship_vabc.ma splits into ship and
abc.ma; the portion before the first dot is not numeric, and the call
fails with ValueError. -/
theorem C7_witness :
    parseSceneName (("ship_vabc.ma").toList) = .valueError :=
  (C7_amended_first_dot (("ship_vabc.ma").toList) (("ship").toList)
    (("abc.ma").toList) (by decide)).1 (by decide)

/-- C4 counterexample: a host whose first attempt fails for a reason
other than a missing directory and whose retry succeeds.  The code
(which catches every RuntimeError) creates the directories and retries,
returning successfully; the claim's policy would propagate the failure
at once with no recovery. -/
theorem C4_counterexample :
    save ⟨.otherFail, .success⟩ = ⟨2, true, .returnedNone⟩ ∧
    claimSave ⟨.otherFail, .success⟩ = ⟨1, false, .raisedSaveFailed⟩ ∧
    (⟨2, true, .returnedNone⟩ : SaveTrace) ≠ ⟨1, false, .raisedSaveFailed⟩ := by
  exact ⟨by decide, by decide, by decide⟩

/-- C4 (amended): on a first save failure of any kind (the except clause
catches every RuntimeError, so it cannot single out the missing-directory
case) save creates the full directory tree and retries exactly once; the
retry's outcome decides the call, and a retry failure propagates with no
further retry. -/
theorem C4_amended_any_failure_recovered (h : SaveHost)
    (hfail : h.attempt1 ≠ .success) :
    (save h).madeDirs = true ∧ (save h).attempts = 2 ∧
    ((save h).result = .returnedNone ↔ h.attempt2 = .success) ∧
    ((save h).result = .raisedSaveFailed ↔ h.attempt2 ≠ .success) := by
  obtain ⟨a1, a2⟩ := h
  cases a1 <;> cases a2 <;> first
    | exact absurd rfl hfail
    | exact ⟨rfl, rfl, by decide, by decide⟩

/-- C4 witness: the theorem applied to a host whose first attempt fails
with the missing-directory condition and whose retry also fails. -/
theorem C4_witness :
    (save ⟨.missingDir, .otherFail⟩).madeDirs = true ∧
    (save ⟨.missingDir, .otherFail⟩).attempts = 2 ∧
    ((save ⟨.missingDir, .otherFail⟩).result = .returnedNone ↔
      (⟨.missingDir, .otherFail⟩ : SaveHost).attempt2 = .success) ∧
    ((save ⟨.missingDir, .otherFail⟩).result = .raisedSaveFailed ↔
      (⟨.missingDir, .otherFail⟩ : SaveHost).attempt2 ≠ .success) :=
  C4_amended_any_failure_recovered ⟨.missingDir, .otherFail⟩ (by decide)

/-- C5: the claim says a successful save returns the saved path.  The
source's save has no return statement, so every successful run returns
Python's None, never a path value; this also contradicts the docstring,
which promises the path on success. -/
theorem C5_save_returns_none :
    save ⟨.success, .success⟩ = ⟨1, false, .returnedNone⟩ ∧
    save ⟨.missingDir, .success⟩ = ⟨2, true, .returnedNone⟩ ∧
    ∀ (dir d e : List Char) (n : Nat),
      SaveResult.returnedNone ≠ .returnedPath (path dir d n e) := by
  refine ⟨by decide, by decide, ?_⟩
  intro dir d e n h
  exact SaveResult.noConfusion h

/-- C8 counterexample: the filename ship contains no separator, yet with
self.descriptor ship it is not silently excluded: split of the separator
gives the one-element list holding ship itself, the descriptor test
succeeds, and indexing the absent second part raises IndexError, so the
whole scan fails. -/
theorem C8_counterexample :
    noV (("ship").toList) = true ∧
    scanStep (("ship").toList) ⟨1, 1⟩ (("ship").toList) = .error .indexErr ∧
    increment_scan (("ship").toList) 1 [("ship").toList] = .error .indexErr := by
  exact ⟨by decide, by decide, by decide⟩

/-- C8 (amended): every listed filename that does not contain the
separator and is not exactly equal to self.descriptor is silently
excluded: processing it neither fails nor changes largest_number or
self.version.  A separator-free filename exactly equal to
self.descriptor instead raises IndexError. -/
theorem C8_amended_no_sep_skipped (descr scene : List Char) (st : ScanState)
    (h1 : noV scene = true) (h2 : scene ≠ descr) :
    scanStep descr st scene = .ok st := by
  apply scanStep_skip
  rw [splitV_noV scene h1]
  simpa using h2

/-- C8 witness: the separator-free filename readme.txt under descriptor
ship is processed without failure and without touching the state. -/
theorem C8_witness :
    scanStep (("ship").toList) ⟨1, 1⟩ (("readme.txt").toList) = .ok ⟨1, 1⟩ :=
  C8_amended_no_sep_skipped (("ship").toList) (("readme.txt").toList) ⟨1, 1⟩
    (by decide) (by decide)

/-- C9: two directory listings that agree on the files whose extracted
descriptor equals self.descriptor (in order) produce the same scan
outcome, no matter which other-descriptor files appear around them and
what version numbers those carry. -/
theorem C9_other_descriptors_never_influence (descr : List Char) (v0 : Nat)
    (l1 l2 : List (List Char))
    (h : l1.filter (sameDescr descr) = l2.filter (sameDescr descr)) :
    increment_scan descr v0 l1 = increment_scan descr v0 l2 := by
  rw [increment_scan, increment_scan, scanFold_filter descr l1, h,
    ← scanFold_filter descr l2]

/-- C9 witness: the listings car_v005.ma, ship_v001.ma and ship_v001.ma,
boat_v900.ma agree on their ship files, and the scan result is the
same. -/
theorem C9_witness :
    increment_scan (("ship").toList) 1
        [("car_v005.ma").toList, ("ship_v001.ma").toList]
      = increment_scan (("ship").toList) 1
        [("ship_v001.ma").toList, ("boat_v900.ma").toList] :=
  C9_other_descriptors_never_influence (("ship").toList) 1 _ _ (by decide)

/-- C10: whenever the scan completes without a parse failure, the
version it leaves behind (the version then saved) is at least the
version the call started from. -/
theorem C10_version_never_decreases (descr : List Char) (v0 : Nat)
    (files : List (List Char)) (st' : ScanState)
    (h : increment_scan descr v0 files = .ok st') : v0 ≤ st'.version :=
  (scanFold_bounds descr v0 files ⟨v0, v0⟩ st' le_rfl le_rfl h).1

/-- C10 witness: the theorem applied to descriptor ship, version 1 and
the singleton listing ship_v001.ma, whose scan ends at version 2. -/
theorem C10_witness :
    increment_scan (("ship").toList) 1 [("ship_v001.ma").toList] = .ok ⟨2, 1⟩ ∧
    1 ≤ (⟨2, 1⟩ : ScanState).version :=
  ⟨by decide,
    C10_version_never_decreases (("ship").toList) 1 [("ship_v001.ma").toList]
      ⟨2, 1⟩ (by decide)⟩

end SceneFile
